import Mathlib

/-!
Verification of the per-node simulation engine of a distributed
conservative Petri-net simulator (Rust sources: `src/engine.rs`,
`src/model.rs`, `src/json.rs`).

The embedding translates the data model and the pure state-transforming
core of the engine.  I/O effects are modelled explicitly:
  * outbound network sends become the list of (destination, message)
    pairs the dispatch phase produces;
  * inbound channel receives become oracle functions
    `recv, tryRecv : FeedingNode -> Option Message`, where `none` models
    a failed `recv()` / `try_recv()` (the source discards such errors
    with `filter_map(Result::ok)`);
  * the log file and the listener thread handle are omitted (purely
    observational).
Machine integers: `usize` becomes `Nat`, `isize` becomes `Int` (the
values involved are tiny; no claim exercises wrap-around).
-/

/-- `model.rs`: an instruction `(target transition id, value, externality)`. -/
structure Instruction where
  transition_id : Nat
  value : Int
  is_external : Bool
deriving Repr, DecidableEq

/-- `model.rs`: a transition of the local subnet. -/
structure Transition where
  id : Nat
  value : Int
  clock : Nat
  duration : Nat
  immediate_instructions : List Instruction
  delayed_instructions : List Instruction
  is_output : Bool
deriving Repr, DecidableEq

/-- `model.rs`: `ActiveEvent { feeding_node, transition_id, value, clock }`. -/
structure ActiveEvent where
  feeding_node : String
  transition_id : Nat
  value : Int
  clock : Nat
deriving Repr, DecidableEq

/-- `model.rs`: `PassiveEvent { feeding_node, clock }`. -/
structure PassiveEvent where
  feeding_node : String
  clock : Nat
deriving Repr, DecidableEq

/-- `model.rs`: a feeding node; the mpsc receiver is modelled by the
oracle arguments of `tick`, so only name and clock are kept. -/
structure FeedingNode where
  name : String
  clock : Nat
deriving Repr, DecidableEq

/-- A deserialized inbound wire message: the engine's tick parses each
routed line as either an `ActiveEvent` or a `PassiveEvent`. -/
inductive Message where
  | active (a : ActiveEvent)
  | passive (p : PassiveEvent)
deriving Repr, DecidableEq

/-- `engine.rs`: the `Engine` struct (listener handle and log file are
I/O handles and are not part of the simulation state).  The
`transition2node` HashMap is modelled as a total function, matching the
source's panicking index `self.transition2node[&id]` under the spec's
invariant that every referenced id is in the map. -/
structure Engine where
  clock : Nat
  step : Nat
  node : String
  net : List Transition
  terminal_clock : Nat
  fed_nodes : List String
  feeding_nodes : List FeedingNode
  transition2node : Nat → String
  internal_active_events : List ActiveEvent
  external_active_events : List ActiveEvent

/-! ## Loader (`model.rs` / `json.rs`) -/

/-- `json.rs`: the raw JSON shape of one transition record. -/
structure JsonTransition where
  ii_idglobal : Nat
  ii_valor : Int
  ii_tiempo : Nat
  ii_duracion_disparo : Nat
  ii_listactes_iul : List (Int × Int)
  ii_listactes_pul : List (Int × Int)
  ib_desalida : Bool
deriving Repr, DecidableEq

/-- `model.rs` `Instruction::new`: negative encoded id means external,
with `true_id = -(encoded + 1)`; the `as usize` cast is exact because
the adjusted id is provably non-negative. -/
def Instruction.new (instruction : Int × Int) : Instruction :=
  let transition_id := instruction.1
  let is_external := decide (transition_id < 0)
  let transition_id := if is_external then -(transition_id + 1) else transition_id
  { transition_id := transition_id.toNat
    value := instruction.2
    is_external := is_external }

/-- `model.rs` `parse_instructions`: used for both the immediate (IUL)
and the delayed (PUL) instruction lists. -/
def parse_instructions (instructions : List (Int × Int)) : List Instruction :=
  instructions.map Instruction.new

/-- `model.rs` `Net::new` per-record mapping from the JSON shape to a
`Transition`. -/
def Transition.fromJson (t : JsonTransition) : Transition :=
  { id := t.ii_idglobal
    value := t.ii_valor
    clock := t.ii_tiempo
    duration := t.ii_duracion_disparo
    immediate_instructions := parse_instructions t.ii_listactes_iul
    delayed_instructions := parse_instructions t.ii_listactes_pul
    is_output := t.ib_desalida }

/-- `model.rs` `Net::new`: the net is the list of converted records. -/
def Net.fromJson (records : List JsonTransition) : List Transition :=
  records.map Transition.fromJson

/-- The spec's re-encoding of a decoded instruction
(`external => -id - 1, internal => id`), used to state the round-trip
claim. -/
def encodeInstruction (i : Instruction) : Int :=
  if i.is_external then -(i.transition_id : Int) - 1 else (i.transition_id : Int)

/-! ## Bootstrap fragment (`engine.rs` `Engine::new`) -/

/-- `Engine::new` net loading: `paths.map(Net::new).filter_map(Result::ok)`
— each parse result is `some net` (parsed) or `none` (open/parse
failure, silently skipped). -/
def loadNets (parseResults : List (Option (List Transition))) : List (List Transition) :=
  parseResults.filterMap id

/-- `Engine::new` startup assertions: nets non-empty, nodes non-empty,
and one net per node. -/
def engineNewAsserts (nets : List (List Transition)) (nodes : List String) : Bool :=
  !nets.isEmpty && !nodes.isEmpty && nets.length == nodes.length

/-- `Engine::new` `node2fed_nodes` entry for `self`: one push per
external delayed instruction of a transition owned by `self`, in net /
transition / instruction order; no deduplication. -/
def fedNodesOf (transition2node : Nat → String) (self : String)
    (nets : List (List Transition)) : List String :=
  (nets.foldr (fun net acc => net ++ acc) []).foldr
    (fun t acc =>
      (if transition2node t.id == self then
        (t.delayed_instructions.filter (fun i => i.is_external)).map
          (fun i => transition2node i.transition_id)
      else []) ++ acc) []

/-! ## Firing phase (`Engine::run`, lines 158-167) -/

/-- `Engine::process_immediate_instructions` inner update:
`iter_mut().find(id == target)` then set `value`; the source's
`unreachable!()` on a missing id is not exercised by any claim and is
modelled as no change. -/
def setTransitionValue : List Transition → Nat → Int → List Transition
  | [], _, _ => []
  | t :: ts, targetId, v =>
    if t.id == targetId then { t with value := v } :: ts
    else t :: setTransitionValue ts targetId v

/-- `Engine::process_immediate_instructions`: apply each immediate
instruction of the firing transition to the first matching local
transition. -/
def processImmediateInstructions (e : Engine) (t : Transition) : Engine :=
  { e with
      net := t.immediate_instructions.foldl
        (fun net i => setTransitionValue net i.transition_id i.value) e.net }

/-- `Engine::process_delayed_instructions`: build an `ActiveEvent` with
clock `t.clock + t.duration` per delayed instruction and push it onto
the external or internal buffer according to `is_external`. -/
def processDelayedInstructions (e : Engine) (t : Transition) : Engine :=
  t.delayed_instructions.foldl
    (fun acc i =>
      let event : ActiveEvent :=
        { feeding_node := acc.node
          transition_id := i.transition_id
          value := i.value
          clock := t.clock + t.duration }
      if i.is_external then
        { acc with external_active_events := acc.external_active_events ++ [event] }
      else
        { acc with internal_active_events := acc.internal_active_events ++ [event] })
    e

/-- One firing: immediate instructions, then delayed instructions. -/
def fireOne (e : Engine) (t : Transition) : Engine :=
  processDelayedInstructions (processImmediateInstructions e t) t

/-- `Engine::run` firing phase selection: the snapshot of the transition
list is filtered by `clock == engine.clock && value <= 0` and reversed
(`.rev()`, stack semantics). -/
def firingOrder (e : Engine) : List Transition :=
  (e.net.filter (fun t => t.clock == e.clock && decide (t.value ≤ 0))).reverse

/-- `Engine::run` firing phase: process the selected transitions in
order of `firingOrder`. -/
def fireDueTransitions (e : Engine) : Engine :=
  (firingOrder e).foldl fireOne e

/-! ## Dispatch phase (`Engine::handle_external_events`) -/

/-- Destination resolution of the buffered external events:
`(transition2node[event.transition_id], event)`. -/
def activeDispatch (e : Engine) : List (String × ActiveEvent) :=
  e.external_active_events.map
    (fun ev => (e.transition2node ev.transition_id, ev))

/-- `covered_nodes`: destinations of this iteration's external events. -/
def coveredNodes (e : Engine) : List String :=
  (activeDispatch e).map Prod.fst

/-- Passive-event synthesis: one `PassiveEvent` with
`clock = engine.clock + step` per fed-node entry not in `covered_nodes`. -/
def passiveDispatch (e : Engine) : List (String × PassiveEvent) :=
  (e.fed_nodes.filter (fun fed_node => !(coveredNodes e).contains fed_node)).map
    (fun fed_node => (fed_node, { feeding_node := e.node, clock := e.clock + e.step }))

/-- The full outbound message list of one dispatch phase: active events
chained with synthesized passive events. -/
def dispatchMessages (e : Engine) : List (String × Message) :=
  (activeDispatch e).map (fun p => (p.1, Message.active p.2)) ++
    (passiveDispatch e).map (fun p => (p.1, Message.passive p.2))

/-- Number of messages one dispatch phase sends to node `n`. -/
def messagesTo (e : Engine) (n : String) : Nat :=
  ((dispatchMessages e).filter (fun m => m.1 == n)).length

/-! ## Tick (`Engine::tick`) -/

/-- `min` of a list with a default for the empty list, mirroring
`iterator.min().unwrap_or(default)`. -/
def minOr (l : List Nat) (d : Nat) : Nat :=
  match l with
  | [] => d
  | x :: xs => xs.foldl Nat.min x

/-- `earliest_clock`: minimum over internal-event clocks chained with
feeding-node clocks, defaulting to `engine.clock`. -/
def earliestClock (e : Engine) : Nat :=
  minOr
    (e.internal_active_events.map (fun ev => ev.clock) ++
      e.feeding_nodes.map (fun f => f.clock))
    e.clock

/-- The messages `tick` consumes: one blocking `recv` per feeding node
at `earliest_clock`, chained with one `try_recv` per feeding node; both
oracles return `none` on a receive error, which `filter_map(Result::ok)`
discards. -/
def tickEvents (e : Engine) (recv tryRecv : FeedingNode → Option Message) :
    List Message :=
  ((e.feeding_nodes.filter (fun f => f.clock == earliestClock e)).filterMap recv) ++
    e.feeding_nodes.filterMap tryRecv

/-- `find(name == event.feeding_node)` then set `clock`; no effect when
the name is unknown (the source's `if let Some` has no else branch). -/
def setFeedingClock : List FeedingNode → String → Nat → List FeedingNode
  | [], _, _ => []
  | f :: fs, name, c =>
    if f.name == name then { f with clock := c } :: fs
    else f :: setFeedingClock fs name c

/-- Integration of one received message: an `ActiveEvent` is appended to
the internal buffer; a `PassiveEvent` updates the matching feeding
node's clock. -/
def integrateMessage (e : Engine) (m : Message) : Engine :=
  match m with
  | Message.active a =>
      { e with internal_active_events := e.internal_active_events ++ [a] }
  | Message.passive p =>
      { e with feeding_nodes := setFeedingClock e.feeding_nodes p.feeding_node p.clock }

/-- `Engine::tick`: consume messages, integrate them, then set
`clock = min(internal event clocks).unwrap_or(clock + step)`. -/
def tick (e : Engine) (recv tryRecv : FeedingNode → Option Message) : Engine :=
  let e2 := (tickEvents e recv tryRecv).foldl integrateMessage e
  { e2 with
      clock := minOr (e2.internal_active_events.map (fun ev => ev.clock))
        (e2.clock + e2.step) }

/-! ## Internal-event integration (`Engine::handle_internal_events`) -/

/-- `find(id == event.transition_id)` then set `clock` and `value`; a
missing transition leaves the net unchanged (misrouted event dropped). -/
def applyEventToNet : List Transition → ActiveEvent → List Transition
  | [], _ => []
  | t :: ts, ev =>
    if t.id == ev.transition_id then
      { t with clock := ev.clock, value := ev.value } :: ts
    else t :: applyEventToNet ts ev

/-- `Engine::handle_internal_events`: write every buffered event with
`clock == engine.clock` into its target transition, then retain only
events with `clock != engine.clock`. -/
def handleInternalEvents (e : Engine) : Engine :=
  { e with
      net := (e.internal_active_events.filter (fun ev => ev.clock == e.clock)).foldl
        applyEventToNet e.net
      internal_active_events :=
        e.internal_active_events.filter (fun ev => ev.clock != e.clock) }

/-- One iteration of `Engine::run`: fire due transitions, dispatch (the
produced outbound messages are returned), clear the external buffer,
tick, integrate internal events. -/
def runIteration (e : Engine) (recv tryRecv : FeedingNode → Option Message) :
    Engine × List (String × Message) :=
  let e1 := fireDueTransitions e
  let msgs := dispatchMessages e1
  let e1 := { e1 with external_active_events := [] }
  let e2 := tick e1 recv tryRecv
  (handleInternalEvents e2, msgs)

/-! ## Helper lemmas -/

lemma foldl_min_le_init (xs : List Nat) (a : Nat) : xs.foldl Nat.min a ≤ a := by
  induction xs generalizing a with
  | nil => exact Nat.le_refl a
  | cons x xs ih =>
    exact Nat.le_trans (ih (Nat.min a x)) (Nat.min_le_left a x)

lemma foldl_min_le_mem (xs : List Nat) :
    ∀ (a x : Nat), x ∈ xs → xs.foldl Nat.min a ≤ x := by
  induction xs with
  | nil => intro a x hx; cases hx
  | cons y ys ih =>
    intro a x hx
    rcases List.mem_cons.mp hx with h | h
    · subst h
      exact Nat.le_trans (foldl_min_le_init ys (Nat.min a x)) (Nat.min_le_right a x)
    · exact ih (Nat.min a y) x h

lemma foldl_min_eq_or_mem (xs : List Nat) :
    ∀ (a : Nat), xs.foldl Nat.min a = a ∨ xs.foldl Nat.min a ∈ xs := by
  induction xs with
  | nil => intro a; exact Or.inl rfl
  | cons x xs ih =>
    intro a
    rcases ih (Nat.min a x) with h | h
    · rw [List.foldl_cons, h]
      have hcase : Nat.min a x = a ∨ Nat.min a x = x := by
        show min a x = a ∨ min a x = x
        omega
      rcases hcase with h' | h'
      · exact Or.inl h'
      · exact Or.inr (by rw [h']; exact List.mem_cons_self x xs)
    · exact Or.inr (List.mem_cons_of_mem x (by rw [List.foldl_cons]; exact h))

lemma minOr_mem {l : List Nat} (d : Nat) (h : l ≠ []) : minOr l d ∈ l := by
  cases l with
  | nil => exact absurd rfl h
  | cons x xs =>
    have hd : minOr (x :: xs) d = xs.foldl Nat.min x := rfl
    rcases foldl_min_eq_or_mem xs x with h' | h'
    · rw [hd, h']; exact List.mem_cons_self x xs
    · rw [hd]; exact List.mem_cons_of_mem x h'

lemma minOr_le {l : List Nat} (d : Nat) {x : Nat} (hx : x ∈ l) : minOr l d ≤ x := by
  cases l with
  | nil => cases hx
  | cons y ys =>
    have hd : minOr (y :: ys) d = ys.foldl Nat.min y := rfl
    rcases List.mem_cons.mp hx with h | h
    · rw [hd, h]; exact foldl_min_le_init ys y
    · rw [hd]; exact foldl_min_le_mem ys y x h

lemma integrateMessage_clock (e : Engine) (m : Message) :
    (integrateMessage e m).clock = e.clock := by
  cases m <;> rfl

lemma integrateMessage_step (e : Engine) (m : Message) :
    (integrateMessage e m).step = e.step := by
  cases m <;> rfl

lemma foldl_integrate_clock (ms : List Message) (e : Engine) :
    (ms.foldl integrateMessage e).clock = e.clock := by
  induction ms generalizing e with
  | nil => rfl
  | cons m ms ih => rw [List.foldl_cons, ih, integrateMessage_clock]

lemma foldl_integrate_step (ms : List Message) (e : Engine) :
    (ms.foldl integrateMessage e).step = e.step := by
  induction ms generalizing e with
  | nil => rfl
  | cons m ms ih => rw [List.foldl_cons, ih, integrateMessage_step]

lemma tick_clock_eq (e : Engine) (recv tryRecv : FeedingNode → Option Message) :
    (tick e recv tryRecv).clock
      = minOr
          (((tickEvents e recv tryRecv).foldl integrateMessage
              e).internal_active_events.map (fun ev => ev.clock))
          (e.clock + e.step) := by
  simp only [tick]
  rw [foldl_integrate_clock, foldl_integrate_step]

lemma tick_internal_events_eq (e : Engine) (recv tryRecv : FeedingNode → Option Message) :
    (tick e recv tryRecv).internal_active_events
      = ((tickEvents e recv tryRecv).foldl integrateMessage
          e).internal_active_events := rfl

lemma tick_feeding_nodes_eq (e : Engine) (recv tryRecv : FeedingNode → Option Message) :
    (tick e recv tryRecv).feeding_nodes
      = ((tickEvents e recv tryRecv).foldl integrateMessage e).feeding_nodes := rfl

/-! ## Claim C8: instruction encoding round-trip -/

/-- C8: for every encoded integer `e`, decoding via `Instruction::new`
(`is_external = e < 0`; `true_id = -e - 1` when external, else `e`) and
re-encoding (`external => -id - 1, internal => id`) yields the original
`e`.  Stated over the full encoded pair `(encoded id, value)`. -/
theorem instruction_encode_roundtrip (p : Int × Int) :
    encodeInstruction (Instruction.new p) = p.1 := by
  unfold Instruction.new encodeInstruction
  by_cases h : p.1 < 0 <;> simp [h] <;> omega

/-! ## Claim C7: internal-event integration postcondition -/

/-- C7: after `handle_internal_events` returns, no event with
`clock == engine.clock` remains in the internal buffer, and the events
with a different clock are retained unchanged (the new buffer is exactly
the old one filtered by `clock != engine.clock`, in order). -/
theorem handle_internal_events_post (e : Engine) :
    (∀ ev ∈ (handleInternalEvents e).internal_active_events, ev.clock ≠ e.clock) ∧
    (handleInternalEvents e).internal_active_events
      = e.internal_active_events.filter (fun ev => decide (ev.clock ≠ e.clock)) := by
  constructor
  · intro ev hev
    have := (List.mem_filter.mp hev).2
    exact bne_iff_ne.mp this
  · show e.internal_active_events.filter _ = _
    apply List.filter_congr
    intro ev _
    by_cases h : ev.clock = e.clock <;> simp [h]

/-! ## Claim C10: tick silently discards receive failures -/

/-- C10: when every blocking `recv` and every `try_recv` fails (modelled
by the oracles returning `none`, as the source's
`filter_map(Result::ok)` discards the errors), `tick` still returns
normally, consumes no message, and advances the clock by the usual rule
(`min` of buffered event clocks, else `clock + step`). -/
theorem tick_discards_recv_failures (e : Engine) :
    tick e (fun _ => none) (fun _ => none)
      = { e with
            clock := minOr (e.internal_active_events.map (fun ev => ev.clock))
              (e.clock + e.step) } := by
  have h : tickEvents e (fun _ => none) (fun _ => none) = [] := by
    simp [tickEvents]
  unfold tick
  rw [h]
  rfl

/-! ## Claim C9: unparseable net files are silently skipped -/

/-- C9: during bootstrap an unparseable net file is skipped (removing a
`none` parse result leaves the loaded net list unchanged), the loaded
list has one net per parseable file, and the startup assertions fail
exactly when the number of loaded nets is zero or differs from the node
count. -/
theorem engine_new_skips_unparseable (pre post results : List (Option (List Transition)))
    (nodes : List String) :
    loadNets (pre ++ none :: post) = loadNets (pre ++ post) ∧
    (loadNets results).length = (results.filter (fun o => o.isSome)).length ∧
    (engineNewAsserts (loadNets results) nodes = true ↔
      ¬ ((loadNets results).length = 0 ∨ (loadNets results).length ≠ nodes.length)) := by
  refine ⟨by simp [loadNets], ?_, ?_⟩
  · induction results with
    | nil => rfl
    | cons o rest ih => cases o <;> simp [loadNets, List.filterMap_cons] at ih ⊢ <;> omega
  · have h1 : (loadNets results).isEmpty = ((loadNets results).length == 0) := by
      cases loadNets results <;> rfl
    have h2 : nodes.isEmpty = (nodes.length == 0) := by
      cases nodes <;> rfl
    simp only [engineNewAsserts, h1, h2, Bool.and_eq_true, Bool.not_eq_true',
      beq_eq_false_iff_ne, beq_iff_eq, ne_eq]
    omega

/-! ## Claims C1 and C2: tick invariants

Concrete engine states used below.  `e0` is the initial state
`Engine::new` produces for a node "A" whose only transition (id 0,
value 1, clock 5) carries one external delayed instruction targeting
transition 1 owned by "B", with "B" symmetrically feeding "A": clock 0,
step 1, feeding node "B" at clock 0, both buffers empty. -/

def tEx : Transition :=
  { id := 0, value := 1, clock := 5, duration := 0,
    immediate_instructions := []
    delayed_instructions := [{ transition_id := 1, value := -1, is_external := true }]
    is_output := false }

def t2nEx : Nat → String := fun id => if id == 0 then "A" else "B"

def e0 : Engine :=
  { clock := 0, step := 1, node := "A", net := [tEx], terminal_clock := 3,
    fed_nodes := ["B"], feeding_nodes := [{ name := "B", clock := 0 }],
    transition2node := t2nEx, internal_active_events := [], external_active_events := [] }

/-- Oracle: the blocked receive yields a stale passive event (clock 0). -/
def recvStale : FeedingNode → Option Message :=
  fun _ => some (Message.passive { feeding_node := "B", clock := 0 })

/-- Oracle: the blocked receive yields a passive event with clock 5. -/
def recvFresh : FeedingNode → Option Message :=
  fun _ => some (Message.passive { feeding_node := "B", clock := 5 })

/-- Oracle: every receive fails / finds nothing. -/
def recvNone : FeedingNode → Option Message := fun _ => none

/-- C1 counterexample: from the reachable initial state `e0`, a tick
that receives a stale `PassiveEvent` (clock 0) from the blocked feeding
node ends with `engine.clock = 1`, feeding-node clock 0 and an empty
internal buffer, so the conservative-safety disjunction fails. -/
theorem tick_conservative_safety_cex :
    ¬ (∀ f ∈ (tick e0 recvStale recvNone).feeding_nodes,
        (tick e0 recvStale recvNone).clock ≤ f.clock ∨
          ∃ ev ∈ (tick e0 recvStale recvNone).internal_active_events,
            ev.clock = (tick e0 recvStale recvNone).clock) := by
  decide

/-- C1 (amended): after `tick`, for every feeding node f,
`engine.clock ≤ f.last_known_clock` or some internal event has
`clock == engine.clock` — provided every feeding node's clock after
message integration is at least the pre-tick `engine.clock + step`
(which protocol-conforming peers guarantee; arbitrary inbox messages
can violate it). -/
theorem tick_conservative_safety (e : Engine) (recv tryRecv : FeedingNode → Option Message)
    (h : ∀ f ∈ (tick e recv tryRecv).feeding_nodes, e.clock + e.step ≤ f.clock) :
    ∀ f ∈ (tick e recv tryRecv).feeding_nodes,
      (tick e recv tryRecv).clock ≤ f.clock ∨
        ∃ ev ∈ (tick e recv tryRecv).internal_active_events,
          ev.clock = (tick e recv tryRecv).clock := by
  intro f hf
  have hclock := tick_clock_eq e recv tryRecv
  rcases hbuf : (tick e recv tryRecv).internal_active_events with _ | ⟨ev0, evs⟩
  · left
    rw [tick_internal_events_eq] at hbuf
    rw [hbuf] at hclock
    simp only [List.map_nil, minOr] at hclock
    rw [hclock]
    exact h f hf
  · right
    rw [tick_internal_events_eq] at hbuf
    have hne :
        ((tickEvents e recv tryRecv).foldl integrateMessage
            e).internal_active_events.map (fun ev => ev.clock) ≠ [] := by
      rw [hbuf]; simp
    have hmem := minOr_mem (e.clock + e.step) hne
    rw [← hclock] at hmem
    obtain ⟨ev, hev, hevc⟩ := List.mem_map.mp hmem
    exact ⟨ev, hbuf ▸ hev, hevc⟩

/-- C1 witness: at `e0`, when the blocked receive returns a passive
event with clock 5, the hypothesis of `tick_conservative_safety` holds
and so does its conclusion. -/
theorem tick_conservative_safety_witness :
    (∀ f ∈ (tick e0 recvFresh recvNone).feeding_nodes, e0.clock + e0.step ≤ f.clock) ∧
    (∀ f ∈ (tick e0 recvFresh recvNone).feeding_nodes,
      (tick e0 recvFresh recvNone).clock ≤ f.clock ∨
        ∃ ev ∈ (tick e0 recvFresh recvNone).internal_active_events,
          ev.clock = (tick e0 recvFresh recvNone).clock) :=
  ⟨by decide, tick_conservative_safety e0 recvFresh recvNone (by decide)⟩

/-- The state reached from `e0` after one iteration in which the peer
announced clock 5: `engine.clock = 1`, feeding node "B" known at 5. -/
def e1 : Engine := { e0 with clock := 1, feeding_nodes := [{ name := "B", clock := 5 }] }

/-- Oracle: the blocked receive yields an `ActiveEvent` carrying clock 0,
older than the engine's current clock. -/
def recvStaleActive : FeedingNode → Option Message :=
  fun _ => some (Message.active { feeding_node := "B", transition_id := 1, value := -1, clock := 0 })

/-- C2 counterexample: at `e1` (clock 1), integrating an `ActiveEvent`
with clock 0 makes `tick` set `engine.clock = 0 < 1`: the clock
decreases for this message sequence. -/
theorem tick_clock_monotone_cex :
    ¬ (e1.clock ≤ (tick e1 recvStaleActive recvNone).clock) := by
  decide

/-- C2 (amended): across `tick` the engine clock does not decrease,
provided every event buffered after message integration carries a clock
at least the pre-tick `engine.clock` (locally generated events always
do; an arbitrary inbox `ActiveEvent` with an older clock violates it
and drags the clock backwards). -/
theorem tick_clock_monotone (e : Engine) (recv tryRecv : FeedingNode → Option Message)
    (h : ∀ ev ∈ (tick e recv tryRecv).internal_active_events, e.clock ≤ ev.clock) :
    e.clock ≤ (tick e recv tryRecv).clock := by
  have hclock := tick_clock_eq e recv tryRecv
  rcases hbuf : (tick e recv tryRecv).internal_active_events with _ | ⟨ev0, evs⟩
  · rw [tick_internal_events_eq] at hbuf
    rw [hbuf] at hclock
    simp only [List.map_nil, minOr] at hclock
    omega
  · rw [tick_internal_events_eq] at hbuf
    have hne :
        ((tickEvents e recv tryRecv).foldl integrateMessage
            e).internal_active_events.map (fun ev => ev.clock) ≠ [] := by
      rw [hbuf]; simp
    have hmem := minOr_mem (e.clock + e.step) hne
    rw [← hclock] at hmem
    obtain ⟨ev, hev, hevc⟩ := List.mem_map.mp hmem
    have hevin : ev ∈ (tick e recv tryRecv).internal_active_events := by
      rw [tick_internal_events_eq]; exact hev
    have := h ev hevin
    omega

/-- C2 witness: at `e0` with a fresh passive event the buffer stays
empty, the hypothesis of `tick_clock_monotone` holds, and the clock
moves from 0 to 1. -/
theorem tick_clock_monotone_witness :
    (∀ ev ∈ (tick e0 recvFresh recvNone).internal_active_events,
      e0.clock ≤ ev.clock) ∧
    e0.clock ≤ (tick e0 recvFresh recvNone).clock :=
  ⟨by decide, tick_clock_monotone e0 recvFresh recvNone (by decide)⟩

/-! ## Claim C3: firing phase selection and order -/

/-- C3: in each iteration, exactly the local transitions of the
top-of-iteration snapshot with `clock == engine.clock` and `value <= 0`
are fired, and the firing phase processes them in reverse order of
their appearance in the Net's transition list. -/
theorem firing_selection_and_order (e : Engine) :
    (∀ t, t ∈ firingOrder e ↔ t ∈ e.net ∧ t.clock = e.clock ∧ t.value ≤ 0) ∧
    firingOrder e
      = (e.net.filter (fun t => decide (t.clock = e.clock) && decide (t.value ≤ 0))).reverse ∧
    fireDueTransitions e = (firingOrder e).foldl fireOne e := by
  refine ⟨?_, ?_, rfl⟩
  · intro t
    simp [firingOrder, List.mem_reverse, List.mem_filter, Bool.and_eq_true,
      beq_iff_eq, decide_eq_true_eq, and_assoc]
  · unfold firingOrder
    congr 1

/-! ## Claim C4: passive-event synthesis -/

/-- C4: the dispatch phase synthesizes a `PassiveEvent` for exactly
those fed-node entries that are the destination of no buffered external
active event, and every synthesized `PassiveEvent` carries
`clock = engine.clock + step` (clock taken at dispatch time) and names
this node as `feeding_node`. -/
theorem passive_event_synthesis (e : Engine) :
    (∀ n : String,
      (∃ pe, (n, pe) ∈ passiveDispatch e) ↔
        (n ∈ e.fed_nodes ∧
          ∀ ev ∈ e.external_active_events, e.transition2node ev.transition_id ≠ n)) ∧
    ∀ n pe, (n, pe) ∈ passiveDispatch e →
      pe.clock = e.clock + e.step ∧ pe.feeding_node = e.node := by
  have hcov : ∀ n : String, n ∈ coveredNodes e ↔
      ∃ ev ∈ e.external_active_events, e.transition2node ev.transition_id = n := by
    intro n
    constructor
    · intro h
      obtain ⟨p, hp, hfst⟩ := List.mem_map.mp h
      obtain ⟨ev, hev, hg⟩ := List.mem_map.mp hp
      exact ⟨ev, hev, by rw [← hfst, ← hg]⟩
    · rintro ⟨ev, hev, hn⟩
      exact List.mem_map.mpr ⟨(e.transition2node ev.transition_id, ev),
        List.mem_map.mpr ⟨ev, hev, rfl⟩, hn⟩
  have hmemp : ∀ (n : String) (pe : PassiveEvent),
      (n, pe) ∈ passiveDispatch e ↔
        (n ∈ e.fed_nodes ∧ n ∉ coveredNodes e ∧
          pe = { feeding_node := e.node, clock := e.clock + e.step }) := by
    intro n pe
    constructor
    · intro h
      obtain ⟨m, hm, hg⟩ := List.mem_map.mp h
      obtain ⟨hm1, hm2⟩ := List.mem_filter.mp hm
      have h1 : m = n := congrArg Prod.fst hg
      have h2 : pe = { feeding_node := e.node, clock := e.clock + e.step } :=
        (congrArg Prod.snd hg).symm
      subst h1
      refine ⟨hm1, ?_, h2⟩
      simpa using hm2
    · rintro ⟨h1, h2, h3⟩
      refine List.mem_map.mpr ⟨n, List.mem_filter.mpr ⟨h1, ?_⟩, by rw [h3]⟩
      simpa using h2
  constructor
  · intro n
    constructor
    · rintro ⟨pe, hpe⟩
      obtain ⟨h1, h2, _⟩ := (hmemp n pe).mp hpe
      refine ⟨h1, ?_⟩
      intro ev hev heq
      exact h2 ((hcov n).mpr ⟨ev, hev, heq⟩)
    · rintro ⟨h1, h2⟩
      refine ⟨{ feeding_node := e.node, clock := e.clock + e.step },
        (hmemp n _).mpr ⟨h1, ?_, rfl⟩⟩
      intro hin
      obtain ⟨ev, hev, heq⟩ := (hcov n).mp hin
      exact h2 ev hev heq
  · intro n pe hpe
    obtain ⟨_, _, h3⟩ := (hmemp n pe).mp hpe
    rw [h3]
    exact ⟨rfl, rfl⟩

/-! ## Claim C6: immediate instructions always internal -/

/-- A well-formed JSON transition record whose immediate (IUL) list
contains the encoded instruction `(-1, 0)`; it parses successfully. -/
def jBad : JsonTransition :=
  { ii_idglobal := 3, ii_valor := 0, ii_tiempo := 0, ii_duracion_disparo := 1,
    ii_listactes_iul := [(-1, 0)], ii_listactes_pul := [], ib_desalida := false }

/-- C6 counterexample: the loader applies the same
`parse_instructions` to the immediate list with no validation, so the
well-formed record `jBad` (immediate list `[[-1, 0]]`) loads into a
transition whose immediate instruction has `is_external = true`. -/
theorem immediate_always_internal_cex :
    ¬ (∀ i ∈ (Transition.fromJson jBad).immediate_instructions, i.is_external = false) := by
  decide

/-- C6 (amended): an immediate instruction decoded from a loadable net
file is internal if and only if every encoded id in the record's
immediate list is non-negative; the loader performs no validation that
would force this. -/
theorem immediate_internal_iff_nonneg (t : JsonTransition) :
    (∀ i ∈ (Transition.fromJson t).immediate_instructions, i.is_external = false) ↔
      ∀ p ∈ t.ii_listactes_iul, 0 ≤ p.1 := by
  simp only [Transition.fromJson, parse_instructions, List.mem_map, forall_exists_index,
    and_imp]
  constructor
  · intro h p hp
    have := h (Instruction.new p) p hp rfl
    simp only [Instruction.new, decide_eq_false_iff_not, Int.not_lt] at this
    exact this
  · intro h i p hp hi
    subst hi
    simp only [Instruction.new, decide_eq_false_iff_not, Int.not_lt]
    exact h p hp

/-! ## Claim C5: exactly one message per fed node per iteration -/

/-- Net of node "A" in the C5 scenario: two transitions, each with one
external delayed instruction targeting transition 2 (owned by "B"). -/
def tA0 : Transition :=
  { id := 0, value := 1, clock := 5, duration := 0,
    immediate_instructions := []
    delayed_instructions := [{ transition_id := 2, value := -1, is_external := true }]
    is_output := false }

def tA1 : Transition := { tA0 with id := 1 }

/-- Net of node "B": transition 2, feeding "A" through an external
delayed instruction targeting transition 0. -/
def tB2 : Transition :=
  { id := 2, value := 1, clock := 5, duration := 0,
    immediate_instructions := []
    delayed_instructions := [{ transition_id := 0, value := -1, is_external := true }]
    is_output := false }

def t2nC5 : Nat → String := fun id => if id ≤ 1 then "A" else "B"

/-- The engine state `Engine::new` produces for node "A" in the C5
scenario: its `fed_nodes` list (built with no deduplication) names "B"
twice, once per external delayed instruction. -/
def eC5 : Engine :=
  { clock := 0, step := 1, node := "A", net := [tA0, tA1], terminal_clock := 3,
    fed_nodes := fedNodesOf t2nC5 "A" [[tA0, tA1], [tB2]],
    feeding_nodes := [{ name := "B", clock := 0 }],
    transition2node := t2nC5, internal_active_events := [], external_active_events := [] }

/-- C5 counterexample: in the first iteration of `eC5` (no transition
fires, the external buffer is empty), the dispatch phase sends fed node
"B" two passive events, not exactly one, because "B" appears twice in
the fed-node list. -/
theorem one_message_per_fed_node_cex :
    "B" ∈ eC5.fed_nodes ∧ ¬ (messagesTo eC5 "B" = 1) := by
  decide

/-- C5 (amended): in each iteration's dispatch phase, every fed node is
sent exactly one message (one active or one passive event), provided it
occurs exactly once in the fed-node list and at most one buffered
external event is destined to it; duplicated fed-node entries or
multiple external events to the same destination yield more. -/
theorem one_message_per_fed_node (e : Engine) (n : String)
    (h1 : e.fed_nodes.count n = 1)
    (h2 : ((activeDispatch e).filter (fun p => p.1 == n)).length ≤ 1) :
    messagesTo e n = 1 := by
  have hsplit : messagesTo e n
      = ((activeDispatch e).filter (fun p => p.1 == n)).length
        + ((passiveDispatch e).filter (fun p => p.1 == n)).length := by
    unfold messagesTo dispatchMessages
    rw [List.filter_append, List.length_append]
    rw [List.filter_map, List.filter_map, List.length_map, List.length_map]
    rfl
  have hpassive : ((passiveDispatch e).filter (fun p => p.1 == n)).length
      = ((e.fed_nodes.filter
            (fun fed_node => !(coveredNodes e).contains fed_node)).filter
          (fun m => m == n)).length := by
    unfold passiveDispatch
    rw [List.filter_map, List.length_map]
    rfl
  by_cases hcov : n ∈ coveredNodes e
  · -- n is covered by an active event: no passive event, one active.
    have hzero : ((passiveDispatch e).filter (fun p => p.1 == n)).length = 0 := by
      rw [hpassive, List.length_eq_zero, List.filter_eq_nil_iff]
      intro m hm
      obtain ⟨_, hq⟩ := List.mem_filter.mp hm
      intro hbeq
      have hmn : m = n := by simpa using hbeq
      subst hmn
      simp [hcov] at hq
    have hone : 0 < ((activeDispatch e).filter (fun p => p.1 == n)).length := by
      obtain ⟨p, hp, hfst⟩ := List.mem_map.mp hcov
      have hmemf : p ∈ (activeDispatch e).filter (fun p => p.1 == n) :=
        List.mem_filter.mpr ⟨hp, by simp [hfst]⟩
      exact List.length_pos.mpr (List.ne_nil_of_mem hmemf)
    omega
  · -- n is uncovered: no active event, and the passive count is the
    -- fed-node multiplicity of n.
    have hzero : ((activeDispatch e).filter (fun p => p.1 == n)).length = 0 := by
      rw [List.length_eq_zero, List.filter_eq_nil_iff]
      intro p hp hbeq
      have : n ∈ coveredNodes e :=
        List.mem_map.mpr ⟨p, hp, by simpa using hbeq⟩
      exact hcov this
    have hq : ((coveredNodes e).contains n) = false := by
      simpa using hcov
    have hpass1 : ((passiveDispatch e).filter (fun p => p.1 == n)).length = 1 := by
      rw [hpassive, ← List.countP_eq_length_filter, List.countP_filter]
      have hcong : e.fed_nodes.countP
            (fun m => (m == n) && !(coveredNodes e).contains m)
          = e.fed_nodes.countP (fun m => m == n) := by
        apply List.countP_congr
        intro m _
        constructor
        · intro h
          exact (Bool.and_eq_true .. ▸ h).1
        · intro h
          have hmn : m = n := by simpa using h
          subst hmn
          simp only [h, Bool.true_and]
          simpa using hcov
      rw [hcong]
      exact h1
    omega

/-- C5 witness: at `e0` (fed-node list `["B"]`, empty external buffer)
both hypotheses of `one_message_per_fed_node` hold and "B" is sent
exactly one message (a passive event). -/
theorem one_message_per_fed_node_witness :
    e0.fed_nodes.count "B" = 1 ∧
    ((activeDispatch e0).filter (fun p => p.1 == "B")).length ≤ 1 ∧
    messagesTo e0 "B" = 1 :=
  ⟨by decide, by decide, one_message_per_fed_node e0 "B" (by decide) (by decide)⟩
